import Mathlib


/-!
Shallow embedding of the deadlock-detection core of the `rtool` static
analyzer (`src/src/analysis/deadlock/`), together with theorems settling
the specification claims about it.

Rust `HashMap` and `HashSet` are embedded as association lists and element
lists; `HashMap` equality (`PartialEq`) is extensional (same keys, same
values), which we capture with explicit boolean comparators and `Eqv`
relations.  Machine identifiers (`DefId`, `Local`, `BasicBlock`) are
embedded as `Nat`.
-/



namespace RTool

/-- `rustc` `DefId`, embedded as a bare identifier. -/
abbrev DefId := Nat

/-- MIR `Local`, embedded as a bare identifier. -/
abbrev MirLocal := Nat

/-- MIR `BasicBlock` index. -/
abbrev BasicBlock := Nat

/-- MIR `Location = (BasicBlock, statement_index)`. -/
structure Location where
  block : BasicBlock
  statementIndex : Nat
deriving DecidableEq

/-- `CallSite` from `types.rs`: caller `DefId` plus the `Location` of the call. -/
structure CallSite where
  caller_def_id : DefId
  location : Location
deriving DecidableEq

/-- `LockInstance` from `types.rs`: a `static` item of lock type.
Identity (`PartialEq`, `Hash`) uses both fields; `span` is embedded as `Nat`. -/
structure LockInstance where
  def_id : DefId
  span : Nat
deriving DecidableEq

/-- `LockSite` from `types.rs`: a lock plus the call site acquiring it. -/
structure LockSite where
  lock : LockInstance
  site : CallSite
deriving DecidableEq

/-- `CallContext` from `types.rs`: 1-call-site-sensitive context. -/
inductive CallContext where
  | Default
  | Place (cs : CallSite)
deriving DecidableEq

/-- `LockState` semi-lattice from `types.rs`. -/
inductive LockState where
  | Bottom
  | MustNotHold
  | MayHold
deriving DecidableEq, Fintype

/-- Pure version of `LockState::join` (`types.rs` lines 62-77); the Rust
method mutates `self` to this value and returns whether it changed. -/
def LockState.join : LockState → LockState → LockState
  | .Bottom, other => other
  | s, .Bottom => s
  | .MayHold, _ => .MayHold
  | _, .MayHold => .MayHold
  | _, _ => .MustNotHold

/-- `IrqState` lattice from `types.rs`. -/
inductive IrqState where
  | Bottom
  | MustBeDisabled
  | MayBeEnabled
deriving DecidableEq, Fintype

/-- `IrqState::union` (`types.rs` lines 268-275). -/
def IrqState.union : IrqState → IrqState → IrqState
  | .Bottom, other => other
  | s, .Bottom => s
  | .MustBeDisabled, .MustBeDisabled => .MustBeDisabled
  | _, _ => .MayBeEnabled

/-! ### Embedding of `std::collections::HashMap` / `HashSet`

An `HMap` is an association list; the analyzer only ever builds maps through
`insert`/merge folds, so keys stay distinct at run time, and `WF` states that
key-distinctness where theorems need it.  `get?` returns the first binding.
Equality of Rust `HashMap`s is extensional; `beqBy` implements it. -/



structure HMap (k v : Type) where
  entries : List (k × v)
deriving DecidableEq

/-- First binding of `key` in an association list. -/
def alistGet? {k v : Type} [DecidableEq k] : List (k × v) → k → Option v
  | [], _ => none
  | e :: rest, key => if e.1 = key then some e.2 else alistGet? rest key

/-- Replace the first binding of `key`, or append a new one. -/
def alistInsert {k v : Type} [DecidableEq k] (key : k) (val : v) :
    List (k × v) → List (k × v)
  | [] => [(key, val)]
  | e :: rest =>
      if e.1 = key then (key, val) :: rest else e :: alistInsert key val rest

namespace HMap

variable {k v : Type} [DecidableEq k]

def empty : HMap k v := ⟨[]⟩

def get? (m : HMap k v) (key : k) : Option v := alistGet? m.entries key

def insert (m : HMap k v) (key : k) (val : v) : HMap k v :=
  ⟨alistInsert key val m.entries⟩

def keys (m : HMap k v) : List k := m.entries.map Prod.fst

/-- The map's keys are pairwise distinct (true of every map the analyzer
builds, since they are only built by `insert` folds starting from empty). -/
def WF (m : HMap k v) : Prop := m.keys.Nodup

instance (m : HMap k v) : Decidable m.WF := by
  unfold WF; infer_instance

/-- Extensional equality of maps, the embedding of `HashMap`'s `PartialEq`. -/
def Eqv (a b : HMap k v) : Prop := ∀ key, a.get? key = b.get? key

/-- Boolean extensional equality given a boolean comparator on values. -/
def beqBy (veq : v → v → Bool) (a b : HMap k v) : Bool :=
  a.entries.all (fun e =>
    match a.get? e.1, b.get? e.1 with
    | some x, some y => veq x y
    | _, _ => false) &&
  b.entries.all (fun e => (a.get? e.1).isSome)

end HMap

/-- Embedding of `HashSet`: an element list; inserts skip duplicates. -/
structure HSet (a : Type) where
  elems : List a
deriving DecidableEq

namespace HSet

variable {a : Type} [DecidableEq a]

def empty : HSet a := ⟨[]⟩

def mem (s : HSet a) (x : a) : Bool := s.elems.any (fun y => decide (y = x))

def insertElem (s : HSet a) (x : a) : HSet a :=
  if s.mem x then s else ⟨s.elems ++ [x]⟩

/-- `HashSet::extend` / union into the left set. -/
def extend (s t : HSet a) : HSet a := t.elems.foldl insertElem s

/-- Extensional (membership) equality, the embedding of `HashSet` equality. -/
def Equiv (s t : HSet a) : Prop := ∀ x, s.mem x = t.mem x

def beq (s t : HSet a) : Bool :=
  s.elems.all (fun x => t.mem x) && t.elems.all (fun x => s.mem x)

end HSet

/-- Fold a list into a `HSet`, inserting the element each item maps to (if
any). -/
def foldInsertElemBy {α β : Type} [DecidableEq α] (f : β → Option α)
    (l : List β) (init : HSet α) : HSet α :=
  l.foldl (fun acc e => match f e with
    | some y => acc.insertElem y
    | none => acc) init

/-! ### `LockSet` (`types.rs` lines 82-145) -/



/-- `LockSet` from `types.rs`: per-lock state plus per-lock possible
acquisition call sites. -/
structure LockSet where
  lock_states : HMap LockInstance LockState
  lock_sites : HMap LockInstance (HSet CallSite)
deriving DecidableEq

namespace LockSet

/-- `LockSet::new`. -/
def new : LockSet := ⟨HMap.empty, HMap.empty⟩

/-- The generic shape of the two merge loops: fold the other map's entries
into `self`, combining with `g old incoming` when the key is present. -/
def mergeFold {k v : Type} [DecidableEq k] (g : Option v → v → v)
    (base : HMap k v) (other : HMap k v) : HMap k v :=
  other.entries.foldl (fun m e => m.insert e.1 (g (m.get? e.1) e.2)) base

/-- `LockSet::merge` (`types.rs` lines 100-121): join states pointwise with
`LockState::join`, union call-site sets pointwise; the Rust method mutates
`self` and returns a changed bit (`old != *self`). -/
def merge (self other : LockSet) : LockSet :=
  { lock_states :=
      mergeFold (fun old inc => match old with
        | some o => o.join inc
        | none => inc) self.lock_states other.lock_states
    lock_sites :=
      mergeFold (fun old inc => match old with
        | some o => o.extend inc
        | none => inc) self.lock_sites other.lock_sites }

/-- `LockSet::update_lock_state`. -/
def update_lock_state (s : LockSet) (lock_id : LockInstance)
    (state : LockState) : LockSet :=
  { s with lock_states := s.lock_states.insert lock_id state }

/-- `LockSet::add_callsite`. -/
def add_callsite (s : LockSet) (lock_id : LockInstance)
    (callsite : CallSite) : LockSet :=
  { s with lock_sites :=
      match s.lock_sites.get? lock_id with
      | some callsites => s.lock_sites.insert lock_id (callsites.insertElem callsite)
      | none => s.lock_sites.insert lock_id (HSet.empty.insertElem callsite) }

/-- `LockSet::is_all_bottom`. -/
def is_all_bottom (s : LockSet) : Bool :=
  s.lock_states.entries.all (fun e => decide (e.2 = LockState.Bottom))

/-- Membership of a call site in a lock's recorded acquisition-site set. -/
def siteMem (s : LockSet) (lock : LockInstance) (cs : CallSite) : Bool :=
  match s.lock_sites.get? lock with
  | some set => set.mem cs
  | none => false

/-- Embedding of `PartialEq` for `LockSet` (extensional `HashMap` equality
on both components, with set equality for the call-site sets). -/
def beq (a b : LockSet) : Bool :=
  HMap.beqBy (fun x y => decide (x = y)) a.lock_states b.lock_states &&
  HMap.beqBy HSet.beq a.lock_sites b.lock_sites

/-- Both maps have pairwise-distinct keys (true of every `LockSet` the
analyzer builds). -/
def WF (s : LockSet) : Prop := s.lock_states.WF ∧ s.lock_sites.WF

instance (s : LockSet) : Decidable s.WF := by
  unfold WF; infer_instance

/-- Extensional equivalence of the option of a call-site set. -/
def optSitesEquiv : Option (HSet CallSite) → Option (HSet CallSite) → Prop
  | none, none => True
  | some s, some t => HSet.Equiv s t
  | _, _ => False

/-- Rust `==` on `LockSet`, as a relation: extensionally equal states and
extensionally equal call-site sets. -/
def Eqv (a b : LockSet) : Prop :=
  (∀ lock, a.lock_states.get? lock = b.lock_states.get? lock) ∧
  (∀ lock, optSitesEquiv (a.lock_sites.get? lock) (b.lock_sites.get? lock))

end LockSet

/-! ### Pointwise description of `LockSet.merge` -/



/-! ### MIR model

Only what the deadlock analyses inspect is embedded: each basic block is
represented by its terminator (statements are identity for every analysis
here).  The terminator of block `b` is at `Location (b, 0)`.  A `call`
carries the callee resolved by `const_fn_def` (`none` embeds an unresolved
callable operand) and the `destination.local`. -/



inductive TermKind where
  | call (callee : Option DefId) (destLocal : MirLocal) (targets : List BasicBlock)
  | drop (placeLocal : MirLocal) (target : BasicBlock)
  | ret
  | goto (target : BasicBlock)
deriving DecidableEq

def TermKind.successors : TermKind → List BasicBlock
  | .call _ _ ts => ts
  | .drop _ t => [t]
  | .ret => []
  | .goto t => [t]

/-- A MIR body: the terminators of its basic blocks, indexed by block id. -/
structure Body where
  blocks : List TermKind
deriving DecidableEq

/-- The `Location` of the terminator of block `b` (each model block holds
only its terminator, so the statement index is 0). -/
def termLoc (b : BasicBlock) : Location := ⟨b, 0⟩

def Body.termAt (body : Body) (b : BasicBlock) : TermKind :=
  (body.blocks[b]?).getD .ret

def Body.preds (body : Body) (b : BasicBlock) : List BasicBlock :=
  (List.range body.blocks.length).filter
    (fun p => (body.termAt p).successors.contains b)

/-- `LocalLockMap` from `types.rs`. -/
abbrev LocalLockMap := HMap MirLocal LockInstance

/-- `GlobalLockMap` from `types.rs`. -/
abbrev GlobalLockMap := HMap DefId LocalLockMap

/-- `FunctionLockSet` from `types.rs` (lines 191-206).  Note that
`pre_bb_locksets` is keyed only by basic block, not by `CallContext`. -/
structure FunctionLockSet where
  func_def_id : DefId
  entry_lockset : HMap CallContext LockSet
  exit_lockset : HMap CallContext LockSet
  pre_bb_locksets : HMap BasicBlock LockSet
  lock_operations : HSet LockSite
deriving DecidableEq

/-! ### Lock-set transfer function
(`lockset_analyzer.rs`, `FuncLockSetAnalyzerInner::apply_primary_terminator_effect`) -/



/-- Looking up a callee's exit lockset under a context in the
`analyzed_functions` cache (empty when absent at either level). -/
def calleeExitLookup (analyzed : HMap DefId FunctionLockSet) (callee : DefId)
    (ctx : CallContext) : LockSet :=
  match analyzed.get? callee with
  | some info => (info.exit_lockset.get? ctx).getD LockSet.new
  | none => LockSet.new

/-- The `Drop` branch of the transfer (`lockset_analyzer.rs` lines
149-162): set the lock's state to `MustNotHold` and clear its call-site set
(`callsites.clear()` only runs when the key is present). -/
def dropRelease (state : LockSet) (lock : LockInstance) : LockSet :=
  match (state.update_lock_state lock .MustNotHold).lock_sites.get? lock with
  | some _ =>
      { state.update_lock_state lock .MustNotHold with
        lock_sites := (state.update_lock_state lock
          .MustNotHold).lock_sites.insert lock HSet.empty }
  | none => state.update_lock_state lock .MustNotHold

/-- State effect of one terminator, from `lockset_analyzer.rs` lines 87-178.
`analyzed` is the `analyzed_functions` cache the analyzer reads callee exit
locksets from.  The side outputs of the same match (callsite recording,
`lock_operations` insertion, exit-lockset merging at `Return`) appear in
`FuncLockSetAnalyzer.run` below, computed from the converged block states. -/
def lockSetTransfer (func_def_id : DefId) (lockmap : LocalLockMap)
    (analyzed : HMap DefId FunctionLockSet) (b : BasicBlock) (t : TermKind)
    (state : LockSet) : LockSet :=
  match t with
  | .call calleeOpt destLocal _ =>
      match calleeOpt with
      | some callee =>
          match lockmap.get? destLocal with
          | some lock =>
              -- acquisition: the destination is a known lock guard
              (state.update_lock_state lock .MayHold).add_callsite lock
                ⟨func_def_id, termLoc b⟩
          | none =>
              -- other call: merge the callee's exit lockset under the
              -- context this call site induces (empty if absent)
              state.merge (calleeExitLookup analyzed callee
                (.Place ⟨func_def_id, termLoc b⟩))
      | none => state
  | .drop placeLocal _ =>
      match lockmap.get? placeLocal with
      | some lock => dropRelease state lock
      | none => state
  | _ => state

/-! ### Intra-procedural fixpoint
(embedding of `rustc_mir_dataflow::Analysis::iterate_to_fixpoint`)

The engine computes the least solution of the forward dataflow equations
`entry[b] = ⊔ over predecessors p of transfer(p, entry[p])`, with
`entry[start]` initialized by `initialize_start_block`.  We embed it as
round-robin iteration from bottom with a fuel bound; for every program this
development evaluates it on, the iteration is checked stable well within the
fuel, so the result is that least solution. -/



def lockEntriesBeq (a b : List LockSet) : Bool :=
  a.length = b.length && (List.zip a b).all (fun p => LockSet.beq p.1 p.2)

def lockStep (func_def_id : DefId) (lockmap : LocalLockMap)
    (analyzed : HMap DefId FunctionLockSet) (body : Body) (init : LockSet)
    (entries : List LockSet) : List LockSet :=
  (List.range body.blocks.length).map (fun b =>
    if b = 0 then init
    else
      (body.preds b).foldl
        (fun acc p =>
          acc.merge (lockSetTransfer func_def_id lockmap analyzed p
            (body.termAt p) (entries.getD p LockSet.new)))
        LockSet.new)

def lockIterate (func_def_id : DefId) (lockmap : LocalLockMap)
    (analyzed : HMap DefId FunctionLockSet) (body : Body) (init : LockSet) :
    Nat → List LockSet → List LockSet
  | 0, entries => entries
  | fuel + 1, entries =>
      let next := lockStep func_def_id lockmap analyzed body init entries
      if lockEntriesBeq entries next then entries
      else lockIterate func_def_id lockmap analyzed body init fuel next

def solveLockFixpoint (func_def_id : DefId) (lockmap : LocalLockMap)
    (analyzed : HMap DefId FunctionLockSet) (body : Body) (init : LockSet) :
    List LockSet :=
  lockIterate func_def_id lockmap analyzed body init 64
    (List.replicate body.blocks.length LockSet.new
      |>.set 0 init)

/-! ### `FuncLockSetAnalyzer::run` (`lockset_analyzer.rs` lines 190-299) -/



/-- The callsite(s) recorded at block `b` (one when the terminator is a
call with a resolved callee). -/
def callsitePiece (body : Body) (b : BasicBlock) : List (Location × DefId) :=
  match body.termAt b with
  | .call (some callee) _ _ => [(termLoc b, callee)]
  | _ => []

/-- The resolved call sites of a body, in block order
(`callsites: HashMap<Location, DefId>`; iteration order is fixed to block
order in the embedding). -/
def bodyCallsites (body : Body) : List (Location × DefId) :=
  (List.range body.blocks.length).foldl
    (fun acc b => acc ++ callsitePiece body b) []

/-- The acquisition `LockSite` recorded by a call site, if any (the guard
check of the acquisition branch). -/
def lockOpOf (body : Body) (lockmap : LocalLockMap) (func_def_id : DefId)
    (lc : Location × DefId) : Option LockSite :=
  match body.termAt lc.1.block with
  | .call (some _) destLocal _ =>
      match lockmap.get? destLocal with
      | some lock => some ⟨lock, ⟨func_def_id, lc.1⟩⟩
      | none => none
  | _ => none

/-- Lock operations after the run: the previous set extended with every
acquisition call site of this body. -/
def runLockOps (body : Body) (lockmap : LocalLockMap) (func_def_id : DefId)
    (prevOps : HSet LockSite) : HSet LockSite :=
  foldInsertElemBy (lockOpOf body lockmap func_def_id) (bodyCallsites body)
    prevOps

/-- Exit locksets after the run: merge the converged state at each `Return`
terminator into the entry for the active context. -/
def runExit (body : Body) (call_context : CallContext)
    (entryAt : BasicBlock → LockSet) (prevExit : HMap CallContext LockSet) :
    HMap CallContext LockSet :=
  (List.range body.blocks.length).foldl (fun m b =>
    match body.termAt b with
    | .ret =>
        match m.get? call_context with
        | some t => m.insert call_context (t.merge (entryAt b))
        | none => m.insert call_context (entryAt b)
    | _ => m) prevExit

/-- `influenced_callees` (`run` lines 243-268): compare the block-entry
lockset at each call site against the callee's cached entry lockset looked
up under the *caller's current* context (source line 251). -/
def runInfluenced (body : Body) (func_def_id : DefId)
    (call_context : CallContext) (analyzed : HMap DefId FunctionLockSet)
    (entryAt : BasicBlock → LockSet) : HMap DefId (CallContext × LockSet) :=
  (bodyCallsites body).foldl (fun m lc =>
    let new_entry := entryAt lc.1.block
    let old_entry := match analyzed.get? lc.2 with
      | some callee_info =>
          (callee_info.entry_lockset.get? call_context).getD LockSet.new
      | none => LockSet.new
    if LockSet.beq new_entry old_entry then m
    else m.insert lc.2 (CallContext.Place ⟨func_def_id, lc.1⟩, new_entry))
    HMap.empty

/-- `pre_bb_locksets` collected from the converged per-block states. -/
def runPreBB (body : Body) (entryAt : BasicBlock → LockSet) :
    HMap BasicBlock LockSet :=
  (List.range body.blocks.length).foldl
    (fun m b => m.insert b (entryAt b)) HMap.empty

/-- One run of the intra-procedural analyzer under one context, returning
the updated `FunctionLockSet` and the `influenced_callees` map.

The engine applies the terminator effect at every (re)visit; since block
states only grow during the iteration, the `exit_lockset` merges and
`lock_operations` inserts accumulated across visits equal the ones computed
from the final block states, which is what this embedding computes. -/
def FuncLockSetAnalyzer.run (bodies : HMap DefId Body) (func_def_id : DefId)
    (call_context : CallContext) (lockmap : LocalLockMap)
    (entry_lockset : HMap CallContext LockSet)
    (analyzed : HMap DefId FunctionLockSet) :
    FunctionLockSet × HMap DefId (CallContext × LockSet) :=
  let body := (bodies.get? func_def_id).getD ⟨[]⟩
  let init := (entry_lockset.get? call_context).getD LockSet.new
  let prev := (analyzed.get? func_def_id).getD
    ⟨func_def_id, entry_lockset, HMap.empty, HMap.empty, HSet.empty⟩
  let entries := solveLockFixpoint func_def_id lockmap analyzed body init
  let entryAt := fun (b : BasicBlock) => entries.getD b LockSet.new
  ({ prev with
      exit_lockset := runExit body call_context entryAt prev.exit_lockset
      lock_operations := runLockOps body lockmap func_def_id prev.lock_operations
      pre_bb_locksets := runPreBB body entryAt },
   runInfluenced body func_def_id call_context analyzed entryAt)

/-! ### `LockSetAnalyzer::run` (`lockset_analyzer.rs` lines 316-408) -/



structure LSAState where
  analyzed : HMap DefId FunctionLockSet
  worklist : List (DefId × CallContext × LockSet)
deriving DecidableEq

/-- The exit-changed comparison uses `PartialEq` on
`HashMap<CallContext, LockSet>`. -/
def exitMapBeq (a b : HMap CallContext LockSet) : Bool :=
  HMap.beqBy LockSet.beq a b

/-- One dequeue iteration of the worklist loop (`run` lines 336-404). -/
def lsaStep (bodies : HMap DefId Body) (glm : GlobalLockMap)
    (st : LSAState) : LSAState :=
  match st.worklist with
  | [] => st
  | (f, ctx, delta) :: rest =>
      match glm.get? f with
      | none => { st with worklist := rest }
      | some lockmap =>
          let cachedOpt := st.analyzed.get? f
          let entryMap0 := match cachedOpt with
            | some c => c.entry_lockset
            | none => HMap.empty
          -- entry update (lines 352-356): merge the delta when a cached
          -- entry exists; otherwise insert a FRESH EMPTY lockset — the
          -- dequeued delta is discarded in that branch
          let entryMap := match entryMap0.get? ctx with
            | some old => entryMap0.insert ctx (old.merge delta)
            | none => entryMap0.insert ctx LockSet.new
          -- the update happens through `get_mut`, i.e. in place in the
          -- cache when the function is cached
          let analyzed1 := match cachedOpt with
            | some c => st.analyzed.insert f { c with entry_lockset := entryMap }
            | none => st.analyzed
          let ra := FuncLockSetAnalyzer.run bodies f ctx lockmap entryMap analyzed1
          let result := ra.1
          let influenced := ra.2
          let exit_changed := match analyzed1.get? f with
            | some old => !(exitMapBeq old.exit_lockset result.exit_lockset)
            | none => true
          -- caller re-enqueue under every context it appears in; map
          -- iteration order is fixed to insertion order in the embedding
          let callerItems := if exit_changed then
              match ctx with
              | .Place cs =>
                  match analyzed1.get? cs.caller_def_id with
                  | some caller_info =>
                      caller_info.entry_lockset.entries.map
                        (fun e => (cs.caller_def_id, e.1, e.2))
                  | none => []
              | .Default => []
            else []
          let calleeItems := influenced.entries.map (fun e => (e.1, e.2.1, e.2.2))
          { analyzed := analyzed1.insert f result
            worklist := rest ++ callerItems ++ calleeItems }

/-- The fused while loop; returns the final state and the number of
dequeue iterations performed. -/
def lsaLoop (bodies : HMap DefId Body) (glm : GlobalLockMap) :
    Nat → LSAState → LSAState × Nat
  | 0, st => (st, 0)
  | limit + 1, st =>
      if st.worklist.isEmpty then (st, 0)
      else
        let r := lsaLoop bodies glm limit (lsaStep bodies glm st)
        (r.1, r.2 + 1)

/-- `LockSetAnalyzer::run`: seed every body owner under
`CallContext::Default` with `⊥`, bound iterations by `10 * seeds`. -/
def LockSetAnalyzer.run (bodies : HMap DefId Body) (glm : GlobalLockMap)
    (body_owners : List DefId) : LSAState × Nat :=
  let seeds := body_owners.map
    (fun f => (f, CallContext.Default, LockSet.new))
  lsaLoop bodies glm (10 * seeds.length) ⟨HMap.empty, seeds⟩

/-! ### Annotations and the ISR analyzer (`isr_analyzer.rs`) -/



/-- The parsed annotation list.  The shape follows its uses in
`isr_analyzer.rs` (lines 162-164, 204) and `lock_collector.rs` (lines
43-44, 102-103); the producing module is the annotation extractor, outside
the analysis core. -/
inductive LockTagItem where
  | LockType (did : DefId) (name : String) (span : Nat)
  | LockGuardType (did : DefId) (name : String) (span : Nat)
  | IntrApi (did : DefId) (isEnable : Bool) (isNested : Bool) (span : Nat)
  | IsrEntry (did : DefId) (span : Nat)
deriving DecidableEq

/-- `FuncIrqInfo` from `types.rs`. -/
structure FuncIrqInfo where
  def_id : DefId
  exit_irq_state : IrqState
  pre_bb_irq_states : HMap BasicBlock IrqState
  interrupt_enable_sites : List CallSite
deriving DecidableEq

/-- `ProgramIsrInfo` from `types.rs`. -/
structure ProgramIsrInfo where
  isr_entries : HSet DefId
  isr_funcs : HSet DefId
  func_irq_infos : HMap DefId FuncIrqInfo
deriving DecidableEq

def ProgramIsrInfo.new : ProgramIsrInfo := ⟨HSet.empty, HSet.empty, HMap.empty⟩

/-- `IsrAnalyzer::collect_isr` (`isr_analyzer.rs` lines 160-198): the ISR
entry set from `IsrEntry` annotations; `isr_funcs` receives only the
entries themselves — the call-graph closure is commented out in the
source (lines 180-187). -/
def IsrAnalyzer.collect_isr (parsed_tags : List LockTagItem) : HSet DefId :=
  parsed_tags.foldl (fun s t =>
    match t with
    | .IsrEntry did _ => s.insertElem did
    | _ => s) HSet.empty

/-- `IsrAnalyzer::collect_interrupt_apis` (lines 202-212). -/
def IsrAnalyzer.collect_interrupt_apis (parsed_tags : List LockTagItem) :
    List DefId × List DefId :=
  parsed_tags.foldl (fun acc t =>
    match t with
    | .IntrApi did isEnable _ _ =>
        if isEnable then (acc.1 ++ [did], acc.2) else (acc.1, acc.2 ++ [did])
    | _ => acc) ([], [])

/-- `IsrAnalyzer::run` (`isr_analyzer.rs` lines 138-157): collects ISRs and
interrupt APIs and returns the `ProgramIsrInfo`.  The per-function
interrupt-state computation (`analyze_interrupt_set`, step 3 of the listed
steps) is commented out at line 148, so `func_irq_infos` stays empty. -/
def IsrAnalyzer.run (parsed_tags : List LockTagItem) : ProgramIsrInfo :=
  let isrs := IsrAnalyzer.collect_isr parsed_tags
  { isr_entries := isrs
    isr_funcs := isrs
    func_irq_infos := HMap.empty }

/-! ### Lock dependency graph (`types.rs` lines 376-486) and reporter -/



inductive LockDependencyEdgeType where
  | Interrupt (cs : CallSite)
  | Call (cs : CallSite)
deriving DecidableEq

structure LockDependencyEdge where
  edge_type : LockDependencyEdgeType
  new_lock_site : LockSite
  old_lock_site : LockSite
deriving DecidableEq

/-- A petgraph `DiGraph`: interned nodes and a list of
`(source index, target index, weight)` edges, indexed by insertion order. -/
structure LockDependencyGraph where
  nodes : List LockInstance
  edges : List (Nat × Nat × LockDependencyEdge)
deriving DecidableEq

namespace LockDependencyGraph

def new : LockDependencyGraph := ⟨[], []⟩

/-- `node_id_or_insert`. -/
def node_id_or_insert (g : LockDependencyGraph) (lock : LockInstance) :
    Nat × LockDependencyGraph :=
  match g.nodes.findIdx? (fun n => decide (n = lock)) with
  | some idx => (idx, g)
  | none => (g.nodes.length, { g with nodes := g.nodes ++ [lock] })

/-- `insert_normal_edge`. -/
def insert_normal_edge (g : LockDependencyGraph) (new_lock_site old_lock_site :
    LockSite) (call_location : CallSite) : LockDependencyGraph :=
  let r1 := g.node_id_or_insert new_lock_site.lock
  let r2 := r1.2.node_id_or_insert old_lock_site.lock
  { r2.2 with edges := r2.2.edges ++
      [(r1.1, r2.1, ⟨.Call call_location, new_lock_site, old_lock_site⟩)] }

/-- `insert_interrupt_edge`, with the first-wins dedup on the
`(new_lock_site, old_lock_site)` pair over edges connecting the nodes. -/
def insert_interrupt_edge (g : LockDependencyGraph) (new_lock_site
    old_lock_site : LockSite) (interrupt_location : CallSite) :
    LockDependencyGraph :=
  let r1 := g.node_id_or_insert new_lock_site.lock
  let r2 := r1.2.node_id_or_insert old_lock_site.lock
  if r2.2.edges.any (fun e =>
      decide (e.1 = r1.1) && decide (e.2.1 = r2.1) &&
      decide (e.2.2.new_lock_site = new_lock_site) &&
      decide (e.2.2.old_lock_site = old_lock_site)) then
    r2.2
  else
    { r2.2 with edges := r2.2.edges ++
        [(r1.1, r2.1, ⟨.Interrupt interrupt_location, new_lock_site,
          old_lock_site⟩)] }

end LockDependencyGraph

/-- `self_cycle_node` (`deadlock_reporter.rs` lines 45-59): the self-loop
edges whose kind is not `Call`, as `(node index, edge index)` pairs. -/
def self_cycle_node (g : LockDependencyGraph) : List (Nat × Nat) :=
  (List.range g.edges.length).foldl (fun acc i =>
    match g.edges[i]? with
    | some e =>
        match e.2.2.edge_type with
        | .Call _ => acc
        | .Interrupt _ => if e.1 = e.2.1 then acc ++ [(e.1, i)] else acc
    | none => acc) []

/-! ### `extract_locksite_pairs` and `InterruptEdgeCollector`
(`ldg_constructor.rs`) -/



/-- The held lock sites contributed by one `lock_sites` entry: all its call
sites when the lock's state is `MayHold`, nothing otherwise. -/
def heldSitesPiece (callsite_lockset : LockSet)
    (e : LockInstance × HSet CallSite) : List LockSite :=
  if callsite_lockset.lock_states.get? e.1 = some .MayHold then
    e.2.elems.map (fun cs => ⟨e.1, cs⟩)
  else []

/-- The held lock sites of a lockset: for each `lock_sites` entry whose
lock's state is `MayHold`, one `LockSite` per recorded call site
(`ldg_constructor.rs` lines 21-36). -/
def callerLocksites (callsite_lockset : LockSet) : List LockSite :=
  callsite_lockset.lock_sites.entries.foldl
    (fun acc e => acc ++ heldSitesPiece callsite_lockset e) []

/-- `extract_locksite_pairs` (`ldg_constructor.rs` lines 14-43). -/
def extract_locksite_pairs (callsite_lockset : LockSet)
    (callee_lock_operations : HSet LockSite) : List (LockSite × LockSite) :=
  let caller_locksites := callerLocksites callsite_lockset
  callee_lock_operations.elems.foldl (fun acc callee_locksite =>
    acc ++ caller_locksites.map (fun caller_locksite =>
      (callee_locksite, caller_locksite))) []

/-- The lock-site pairs one ISR-possible function contributes at a
terminator (the loop body of `ldg_constructor.rs` lines 221-243; the
`continue` on a missing `FunctionLockSet` contributes nothing). -/
def isrPairsPiece (program_lock_set : HMap DefId FunctionLockSet)
    (func_def_id : DefId) (loc : Location) (callsite_lockset : LockSet)
    (isr_def_id : DefId) : List (LockSite × LockSite × CallSite) :=
  match program_lock_set.get? isr_def_id with
  | none => []
  | some isr_info =>
      (extract_locksite_pairs callsite_lockset isr_info.lock_operations).map
        (fun pair => (pair.1, pair.2, ⟨func_def_id, loc⟩))

/-- `InterruptEdgeCollector::visit_terminator` (`ldg_constructor.rs` lines
193-245) at the terminator `loc`.  `none` embeds the `.unwrap()` panic on a
missing per-block entry; the early returns produce no pairs. -/
def interruptVisitTerminator (func_def_id : DefId)
    (program_lock_set : HMap DefId FunctionLockSet)
    (program_isr_info : ProgramIsrInfo) (loc : Location) :
    Option (List (LockSite × LockSite × CallSite)) :=
  match program_isr_info.func_irq_infos.get? func_def_id with
  | none => some []
  | some func_info =>
      match func_info.pre_bb_irq_states.get? loc.block with
      | none => none
      | some irq_state =>
          if irq_state = .MustBeDisabled then some []
          else
            match program_lock_set.get? func_def_id with
            | none => some []
            | some func_lock_info =>
                match func_lock_info.pre_bb_locksets.get? loc.block with
                | none => none
                | some callsite_lockset =>
                    some (program_isr_info.isr_funcs.elems.foldl
                      (fun acc isr_def_id =>
                        acc ++ isrPairsPiece program_lock_set func_def_id
                          loc callsite_lockset isr_def_id) [])

/-- Accumulate the per-item lists of `g` across `bs`; `none` (a panic)
anywhere poisons the whole traversal. -/
def optFoldAppend {α : Type} (g : Nat → Option (List α)) (bs : List Nat)
    (init : List α) : Option (List α) :=
  bs.foldl (fun acc b =>
    match acc, g b with
    | some l, some l2 => some (l ++ l2)
    | _, _ => none) (some init)

/-- `InterruptEdgeCollector::collect`: visit every terminator of the body. -/
def interruptEdgeCollect (func_def_id : DefId) (body : Body)
    (program_lock_set : HMap DefId FunctionLockSet)
    (program_isr_info : ProgramIsrInfo) :
    Option (List (LockSite × LockSite × CallSite)) :=
  optFoldAppend
    (fun b => interruptVisitTerminator func_def_id program_lock_set
      program_isr_info (termLoc b))
    (List.range body.blocks.length) []

/-! ### Guard-to-instance chain following
(`lock_collector.rs`, `LockMapBuilder::run` lines 248-266) -/



/-- The inner `loop` of `LockMapBuilder::run`: follow the dataflow map from
`current` until the direct lock map hits (`some (some lock)`) or the chain
has no upstream (`some none`).  The Rust loop has no other exit; `none`
means the given number of steps elapsed with the loop still running. -/
def followDataflow (lockmap : LocalLockMap) (dfmap : HMap MirLocal MirLocal) :
    Nat → MirLocal → Option (Option LockInstance)
  | 0, _ => none
  | fuel + 1, current =>
      match lockmap.get? current with
      | some lock => some (some lock)
      | none =>
          match dfmap.get? current with
          | some upstream => followDataflow lockmap dfmap fuel upstream
          | none => some none

/-! ### Driver (`mod.rs`, `DeadlockDetector`) -/



/-- The analyzer's external input: the body owners of function kind in
`hir_body_owners` order, their optimized MIR, and the parsed annotation
list (produced by the annotation extractor, outside the core). -/
structure Program where
  body_owners : List DefId
  bodies : HMap DefId Body
  parsed_tags : List LockTagItem
deriving DecidableEq

/-- The detector state after `DeadlockDetector::run` (`mod.rs` lines 64-106):
tags are parsed and the ISR analyzer runs; steps 2-5 (lock collection,
lock-set analysis, LDG construction, cycle reporting) are commented out, so
`program_lock_set` stays empty and `lock_dependency_graph` stays `new()`,
and `DeadlockReporter::run` is never invoked. -/
structure DeadlockDetectorState where
  parsed_tags : List LockTagItem
  program_lock_set : HMap DefId FunctionLockSet
  program_isr_info : ProgramIsrInfo
  lock_dependency_graph : LockDependencyGraph
deriving DecidableEq

def DeadlockDetector.run (prog : Program) : DeadlockDetectorState :=
  { parsed_tags := prog.parsed_tags
    program_lock_set := HMap.empty
    program_isr_info := IsrAnalyzer.run prog.parsed_tags
    lock_dependency_graph := LockDependencyGraph.new }

/-! ### Fixpoint-solution predicate

The rustc dataflow engine computes the least solution of the forward
equations; `isLockFixpoint` states those equations for a candidate list of
block-entry locksets (for bodies whose start block has no predecessors,
which holds for every body considered here). -/



def isLockFixpoint (func_def_id : DefId) (lockmap : LocalLockMap)
    (analyzed : HMap DefId FunctionLockSet) (body : Body) (init : LockSet)
    (pre : List LockSet) : Bool :=
  decide (pre.length = body.blocks.length) &&
  (List.range body.blocks.length).all (fun b =>
    LockSet.beq (pre.getD b LockSet.new)
      (if b = 0 then init
       else
         (body.preds b).foldl
           (fun acc p =>
             acc.merge (lockSetTransfer func_def_id lockmap analyzed p
               (body.termAt p) (pre.getD p LockSet.new)))
           LockSet.new))

/-! ### Extraction lemmas for the boolean comparators -/



/-! ### Fold-membership helper lemmas -/



/-! ### Lattice laws for `LockSet.merge` (modulo extensional equality) -/



/-! ### Concrete inputs used by the claim theorems -/



/-- The annotated lock instance `L` (a `static` of lock type, `DefId` 100). -/
def lockL : LockInstance := ⟨100, 0⟩

/-- A second lock instance, for the lattice-law witness. -/
def lockM : LockInstance := ⟨101, 0⟩

/-- End-to-end scenario 1: `t1` (`DefId` 1) does `let g = L.lock()` (local
10, lock API `DefId` 50) and then calls the non-disabling `foo` (`DefId` 3);
`isr_foo` (`DefId` 2) itself calls `L.lock()`. -/
def t1Body : Body := ⟨[.call (some 50) 10 [1], .call (some 3) 11 [2], .ret]⟩

def isrFooBody : Body := ⟨[.call (some 50) 10 [1], .ret]⟩

def fooBody : Body := ⟨[.ret]⟩

def scenarioTags : List LockTagItem :=
  [.LockType 20 "SpinLock" 0, .LockGuardType 21 "SpinLockGuard" 0,
   .IsrEntry 2 0]

def scenarioProgram : Program :=
  { body_owners := [1, 2, 3]
    bodies := ((HMap.empty.insert 1 t1Body).insert 2 isrFooBody).insert 3 fooBody
    parsed_tags := scenarioTags }

/-- Mutual recursion example: `f` (`DefId` 1) acquires `L` (guard local 10)
then calls `g` (`DefId` 2); `g` calls `f` back. -/
def mutualFBody : Body := ⟨[.call (some 50) 10 [1], .call (some 2) 11 [2], .ret]⟩

def mutualGBody : Body := ⟨[.call (some 1) 11 [1], .ret]⟩

def mutualBodies : HMap DefId Body :=
  (HMap.empty.insert 1 mutualFBody).insert 2 mutualGBody

def mutualGlm : GlobalLockMap :=
  (HMap.empty.insert 1 (HMap.empty.insert 10 lockL)).insert 2 HMap.empty

/-- A dequeued delta carrying a possibly-held lock. -/
def c3Delta : LockSet :=
  ⟨⟨[(lockL, .MayHold)]⟩, ⟨[(lockL, ⟨[⟨1, ⟨0, 0⟩⟩]⟩)]⟩⟩

/-- A non-`Default` call context for function 1, induced by a call at
block 0 of function 2. -/
def c3Ctx : CallContext := .Place ⟨2, ⟨0, 0⟩⟩

/-- Function 1's cached summary before the dequeue: analyzed under
`Default` only, so nothing is cached yet for `c3Ctx`. -/
def c3Cached : FunctionLockSet :=
  ⟨1, ⟨[(CallContext.Default, LockSet.new)]⟩, HMap.empty, HMap.empty, HSet.empty⟩

def c3Bodies : HMap DefId Body := HMap.empty.insert 1 ⟨[.ret]⟩

def c3Glm : GlobalLockMap := HMap.empty.insert 1 HMap.empty

/-- Worklist state about to dequeue `(1, c3Ctx, c3Delta)`. -/
def c3State : LSAState :=
  ⟨HMap.empty.insert 1 c3Cached, [(1, c3Ctx, c3Delta)]⟩

/-- Direct map for the chain-following example: nonempty, so the closure
loop in `LockMapBuilder::run` is reached. -/
def c9Lockmap : LocalLockMap := ⟨[(5, lockL)]⟩

/-- A cyclic dataflow map, as produced by MIR like `_1 = move _2;
_2 = move _1;`. -/
def c9Dfmap : HMap MirLocal MirLocal := ⟨[(1, 2), (2, 1)]⟩

/-! ### Claim theorems -/



def c5A : LockSet := ⟨⟨[(lockL, .MayHold)]⟩, ⟨[(lockL, ⟨[⟨1, ⟨0, 0⟩⟩]⟩)]⟩⟩

def c5B : LockSet :=
  ⟨⟨[(lockL, .MustNotHold), (lockM, .MayHold)]⟩, ⟨[(lockM, ⟨[⟨2, ⟨0, 0⟩⟩]⟩)]⟩⟩

def c5C : LockSet := ⟨⟨[(lockM, .Bottom)]⟩, ⟨[(lockL, ⟨[]⟩)]⟩⟩

def c6Body : Body := ⟨[.call (some 50) 10 [1], .ret]⟩

def c6Bodies : HMap DefId Body := HMap.empty.insert 1 c6Body

def c6Lockmap : LocalLockMap := HMap.empty.insert 10 lockL

def c10Cached : FunctionLockSet :=
  ⟨1, ⟨[(CallContext.Default, LockSet.new)]⟩, HMap.empty,
    ⟨[(0, c5A)]⟩, HSet.empty⟩

def c10Analyzed : HMap DefId FunctionLockSet := HMap.empty.insert 1 c10Cached

def c10Other : HMap BasicBlock LockSet := ⟨[(0, c5B), (1, c5C)]⟩

/-- Body for the release scenario: `bb0` acquires `L` into guard local 10,
`bb1` drops the guard into `bb2`, `bb2` returns. -/
def c7Body : Body := ⟨[.call (some 50) 10 [1], .drop 10 2, .ret]⟩

def c7Lockmap : LocalLockMap := HMap.empty.insert 10 lockL

def c7Pre : List LockSet :=
  solveLockFixpoint 1 c7Lockmap HMap.empty c7Body LockSet.new

/-- Interrupt-edge witness setup: function 1 holds `L` (acquired at its
block 0) at its only terminator with IRQ state `MayBeEnabled`; the
ISR-possible function 7 has the lock operation `c4Nl` on `L`. -/
def c4HeldCs : CallSite := ⟨1, ⟨0, 0⟩⟩

def c4Nl : LockSite := ⟨lockL, ⟨7, ⟨0, 0⟩⟩⟩

def c4Csl : LockSet := ⟨⟨[(lockL, .MayHold)]⟩, ⟨[(lockL, ⟨[c4HeldCs]⟩)]⟩⟩

def c4Body : Body := ⟨[.ret]⟩

def c4Fi : FuncIrqInfo := ⟨1, .Bottom, ⟨[(0, .MayBeEnabled)]⟩, []⟩

def c4Fli : FunctionLockSet :=
  ⟨1, HMap.empty, HMap.empty, ⟨[(0, c4Csl)]⟩, HSet.empty⟩

def c4IsrInfo : FunctionLockSet :=
  ⟨7, HMap.empty, HMap.empty, HMap.empty, ⟨[c4Nl]⟩⟩

def c4Pls : HMap DefId FunctionLockSet :=
  (HMap.empty.insert 1 c4Fli).insert 7 c4IsrInfo

def c4Pii : ProgramIsrInfo := ⟨⟨[7]⟩, ⟨[7]⟩, HMap.empty.insert 1 c4Fi⟩

def c4Res : List (LockSite × LockSite × CallSite) :=
  (interruptEdgeCollect 1 c4Body c4Pls c4Pii).getD []


/-! ## Theorems -/

theorem HMap.get?_empty {k v : Type} [DecidableEq k] (key : k) : (empty : HMap k v).get? key = none := rfl

theorem HMap.alistGet?_none_of_not_mem {k v : Type} [DecidableEq k] {l : List (k × v)} {key : k}
    (h : key ∉ l.map Prod.fst) : alistGet? l key = none := by
  induction l with
  | nil => rfl
  | cons e rest ih =>
    simp only [List.map_cons, List.mem_cons] at h
    push_neg at h
    simp only [alistGet?, if_neg (Ne.symm h.1)]
    exact ih h.2

theorem HMap.get?_eq_none_of_not_mem {k v : Type} [DecidableEq k] {m : HMap k v} {key : k}
    (h : key ∉ m.keys) : m.get? key = none :=
  alistGet?_none_of_not_mem h

theorem HMap.mem_keys_of_get?_some {k v : Type} [DecidableEq k] {m : HMap k v} {key : k} {val : v}
    (h : m.get? key = some val) : key ∈ m.keys := by
  by_contra hn
  rw [get?_eq_none_of_not_mem hn] at h
  exact Option.noConfusion h

theorem HMap.alistGet?_insert_self {k v : Type} [DecidableEq k] (l : List (k × v)) (key : k) (val : v) :
    alistGet? (alistInsert key val l) key = some val := by
  induction l with
  | nil => simp [alistInsert, alistGet?]
  | cons e rest ih =>
    by_cases he : e.1 = key
    · simp [alistInsert, he, alistGet?]
    · simp only [alistInsert, if_neg he, alistGet?, if_neg he]
      exact ih

theorem HMap.get?_insert_self {k v : Type} [DecidableEq k] (m : HMap k v) (key : k) (val : v) :
    (m.insert key val).get? key = some val :=
  alistGet?_insert_self m.entries key val

theorem HMap.alistGet?_insert_ne {k v : Type} [DecidableEq k] (l : List (k × v)) (key q : k) (val : v)
    (hne : q ≠ key) : alistGet? (alistInsert key val l) q = alistGet? l q := by
  induction l with
  | nil => simp [alistInsert, alistGet?, Ne.symm hne]
  | cons e rest ih =>
    by_cases he : e.1 = key
    · simp only [alistInsert, if_pos he, alistGet?, if_neg (Ne.symm hne)]
      rw [if_neg (he ▸ Ne.symm hne)]
    · simp only [alistInsert, if_neg he, alistGet?]
      by_cases hq : e.1 = q
      · rw [if_pos hq, if_pos hq]
      · rw [if_neg hq, if_neg hq]
        exact ih

theorem HMap.get?_insert_ne {k v : Type} [DecidableEq k] (m : HMap k v) (key q : k) (val : v) (hne : q ≠ key) :
    (m.insert key val).get? q = m.get? q :=
  alistGet?_insert_ne m.entries key q val hne

theorem HMap.alistInsert_keys_of_mem {k v : Type} [DecidableEq k] {l : List (k × v)} {key : k} (val : v)
    (h : key ∈ l.map Prod.fst) :
    (alistInsert key val l).map Prod.fst = l.map Prod.fst := by
  induction l with
  | nil => simp at h
  | cons e rest ih =>
    by_cases he : e.1 = key
    · simp [alistInsert, he]
    · simp only [List.map_cons, List.mem_cons] at h
      rcases h with h | h
      · exact absurd h.symm he
      · simp [alistInsert, if_neg he, ih h]

theorem HMap.alistInsert_keys_of_not_mem {k v : Type} [DecidableEq k] {l : List (k × v)} {key : k} (val : v)
    (h : key ∉ l.map Prod.fst) :
    (alistInsert key val l).map Prod.fst = l.map Prod.fst ++ [key] := by
  induction l with
  | nil => simp [alistInsert]
  | cons e rest ih =>
    simp only [List.map_cons, List.mem_cons] at h
    push_neg at h
    have hne : e.1 ≠ key := fun hk => h.1 hk.symm
    simp [alistInsert, if_neg hne, ih h.2]

theorem HMap.wf_insert {k v : Type} [DecidableEq k] {m : HMap k v} (hm : m.WF) (key : k) (val : v) :
    (m.insert key val).WF := by
  by_cases h : key ∈ m.keys
  · unfold WF keys insert
    rw [alistInsert_keys_of_mem val h]
    exact hm
  · unfold WF keys insert
    rw [alistInsert_keys_of_not_mem val h]
    refine List.Nodup.append hm (List.nodup_singleton key) ?_
    intro x hx hx2
    simp only [List.mem_singleton] at hx2
    exact h (hx2 ▸ hx)

theorem HSet.mem_insertElem {a : Type} [DecidableEq a] (s : HSet a) (x y : a) :
    (s.insertElem x).mem y = (s.mem y || decide (y = x)) := by
  unfold insertElem
  by_cases h : s.mem x = true
  · rw [if_pos h]
    by_cases hyx : y = x
    · subst hyx; simp [h]
    · simp [hyx]
  · rw [if_neg h]
    unfold mem at *
    simp only [List.any_append, List.any_cons, List.any_nil, Bool.or_false]
    rw [decide_eq_decide.mpr (Iff.intro Eq.symm Eq.symm)]

theorem HSet.foldl_insertElem_mem {a : Type} [DecidableEq a] (l : List a) (s : HSet a) (x : a) :
    (l.foldl insertElem s).mem x = (s.mem x || l.any (fun y => decide (y = x))) := by
  induction l generalizing s with
  | nil => simp
  | cons e rest ih =>
    simp only [List.foldl_cons, List.any_cons]
    rw [ih, mem_insertElem]
    by_cases hx : e = x
    · subst hx; simp
    · have hx2 : x ≠ e := fun hh => hx hh.symm
      simp [hx, hx2]

theorem HSet.mem_extend {a : Type} [DecidableEq a] (s t : HSet a) (x : a) :
    (s.extend t).mem x = (s.mem x || t.mem x) := by
  unfold extend mem
  exact foldl_insertElem_mem t.elems s x

theorem foldl_insert_combine_get? {k v : Type} [DecidableEq k]
    (g : Option v → v → v) (l : List (k × v))
    (hl : (l.map Prod.fst).Nodup) (base : HMap k v) (q : k) :
    (l.foldl (fun m e => m.insert e.1 (g (m.get? e.1) e.2)) base).get? q =
      match alistGet? l q with
      | none => base.get? q
      | some inc => some (g (base.get? q) inc) := by
  induction l generalizing base with
  | nil => rfl
  | cons e rest ih =>
    simp only [List.map_cons, List.nodup_cons] at hl
    simp only [List.foldl_cons]
    rw [ih hl.2]
    by_cases hq : q = e.1
    · subst hq
      rw [HMap.alistGet?_none_of_not_mem hl.1, HMap.get?_insert_self]
      simp [alistGet?]
    · have h1 : (base.insert e.1 (g (base.get? e.1) e.2)).get? q =
          base.get? q := HMap.get?_insert_ne _ _ _ _ hq
      have hne : ¬ e.1 = q := fun hh => hq hh.symm
      simp only [alistGet?, if_neg hne]
      rw [h1]

theorem mergeFold_get? {k v : Type} [DecidableEq k] (g : Option v → v → v)
    (base other : HMap k v) (hwf : other.WF) (q : k) :
    (LockSet.mergeFold g base other).get? q =
      match other.get? q with
      | none => base.get? q
      | some inc => some (g (base.get? q) inc) := by
  unfold LockSet.mergeFold
  exact foldl_insert_combine_get? g other.entries hwf base q

theorem merge_states_get? (a b : LockSet) (hb : b.lock_states.WF)
    (lock : LockInstance) :
    (a.merge b).lock_states.get? lock =
      match a.lock_states.get? lock, b.lock_states.get? lock with
      | none, o => o
      | some x, none => some x
      | some x, some y => some (x.join y) := by
  show (LockSet.mergeFold _ _ _).get? lock = _
  rw [mergeFold_get? _ _ _ hb]
  cases ha : a.lock_states.get? lock <;> cases hbq : b.lock_states.get? lock <;> rfl

theorem merge_sites_get? (a b : LockSet) (hb : b.lock_sites.WF)
    (lock : LockInstance) :
    (a.merge b).lock_sites.get? lock =
      match a.lock_sites.get? lock, b.lock_sites.get? lock with
      | none, o => o
      | some x, none => some x
      | some x, some y => some (x.extend y) := by
  show (LockSet.mergeFold _ _ _).get? lock = _
  rw [mergeFold_get? _ _ _ hb]
  cases ha : a.lock_sites.get? lock <;> cases hbq : b.lock_sites.get? lock <;> rfl

theorem mergeFold_wf {k v : Type} [DecidableEq k] (g : Option v → v → v)
    {base : HMap k v} (other : HMap k v) (hwf : base.WF) :
    (LockSet.mergeFold g base other).WF := by
  unfold LockSet.mergeFold
  induction other.entries generalizing base with
  | nil => exact hwf
  | cons e rest ih =>
    simp only [List.foldl_cons]
    exact ih (HMap.wf_insert hwf e.1 (g (base.get? e.1) e.2))

theorem merge_wf {a b : LockSet} (ha : a.WF) : (a.merge b).WF :=
  ⟨mergeFold_wf _ _ ha.1, mergeFold_wf _ _ ha.2⟩

theorem LockState.join_self : ∀ x : LockState, x.join x = x := by decide

theorem LockState.join_comm : ∀ x y : LockState, x.join y = y.join x := by decide

theorem LockState.join_assoc :
    ∀ x y z : LockState, (x.join y).join z = x.join (y.join z) := by decide

theorem IrqState.union_self : ∀ x : IrqState, x.union x = x := by decide

theorem IrqState.union_comm : ∀ x y : IrqState, x.union y = y.union x := by decide

theorem IrqState.union_assoc :
    ∀ x y z : IrqState, (x.union y).union z = x.union (y.union z) := by decide

theorem HSet.mem_iff {a : Type} [DecidableEq a] (s : HSet a) (x : a) :
    s.mem x = true ↔ x ∈ s.elems := by
  unfold HSet.mem
  simp [List.any_eq_true]

theorem HSet.beq_equiv {a : Type} [DecidableEq a] {s t : HSet a}
    (h : HSet.beq s t = true) : HSet.Equiv s t := by
  unfold HSet.beq at h
  rw [Bool.and_eq_true] at h
  intro x
  rcases h with ⟨h1, h2⟩
  rw [List.all_eq_true] at h1 h2
  by_cases hs : s.mem x = true
  · rw [hs]
    exact (h1 x ((HSet.mem_iff s x).mp hs)).symm
  · by_cases ht : t.mem x = true
    · exact absurd (h2 x ((HSet.mem_iff t x).mp ht)) hs
    · rw [Bool.not_eq_true] at hs ht
      rw [hs, ht]

theorem alistGet?_mem {k v : Type} [DecidableEq k] {l : List (k × v)}
    {q : k} {x : v} (h : alistGet? l q = some x) : (q, x) ∈ l := by
  induction l with
  | nil => exact absurd h (by simp [alistGet?])
  | cons e rest ih =>
    unfold alistGet? at h
    by_cases he : e.1 = q
    · rw [if_pos he] at h
      injection h with h2
      have hqx : e = (q, x) := by
        obtain ⟨e1, e2⟩ := e
        simp only at he h2
        rw [he, h2]
      rw [← hqx]
      exact List.mem_cons_self e rest
    · rw [if_neg he] at h
      exact List.mem_cons_of_mem e (ih h)

theorem HMap.get?_mem {k v : Type} [DecidableEq k] {m : HMap k v}
    {q : k} {x : v} (h : m.get? q = some x) : (q, x) ∈ m.entries :=
  alistGet?_mem h

/-- `beqBy` soundness: related lookups at every key. -/
theorem HMap.beqBy_rel {k v : Type} [DecidableEq k] {R : v → v → Prop}
    {veq : v → v → Bool} (hv : ∀ x y, veq x y = true → R x y)
    {a b : HMap k v} (h : HMap.beqBy veq a b = true) (q : k) :
    (a.get? q = none ∧ b.get? q = none) ∨
      (∃ x y, a.get? q = some x ∧ b.get? q = some y ∧ R x y) := by
  unfold HMap.beqBy at h
  rw [Bool.and_eq_true] at h
  rcases h with ⟨h1, h2⟩
  rw [List.all_eq_true] at h1 h2
  cases ha : a.get? q with
  | some x =>
      right
      have hmem := HMap.get?_mem ha
      have := h1 (q, x) hmem
      simp only at this
      rw [ha] at this
      cases hb : b.get? q with
      | some y =>
          rw [hb] at this
          exact ⟨x, y, rfl, rfl, hv x y this⟩
      | none => rw [hb] at this; exact absurd this (by simp)
  | none =>
      left
      refine ⟨rfl, ?_⟩
      cases hb : b.get? q with
      | some y =>
          have hmem := HMap.get?_mem hb
          have := h2 (q, y) hmem
          simp only at this
          rw [ha] at this
          exact absurd this (by simp)
      | none => rfl

theorem LockSet.beq_states_get? {a b : LockSet} (h : LockSet.beq a b = true)
    (lock : LockInstance) :
    a.lock_states.get? lock = b.lock_states.get? lock := by
  unfold LockSet.beq at h
  rw [Bool.and_eq_true] at h
  have := HMap.beqBy_rel (R := fun x y => x = y)
    (fun x y hxy => by simpa using hxy) h.1 lock
  rcases this with ⟨h1, h2⟩ | ⟨x, y, h1, h2, h3⟩
  · rw [h1, h2]
  · rw [h1, h2, h3]

theorem LockSet.beq_siteMem {a b : LockSet} (h : LockSet.beq a b = true)
    (lock : LockInstance) (cs : CallSite) :
    a.siteMem lock cs = b.siteMem lock cs := by
  unfold LockSet.beq at h
  rw [Bool.and_eq_true] at h
  have := HMap.beqBy_rel (R := HSet.Equiv)
    (fun x y hxy => HSet.beq_equiv hxy) h.2 lock
  unfold LockSet.siteMem
  rcases this with ⟨h1, h2⟩ | ⟨x, y, h1, h2, h3⟩
  · rw [h1, h2]
  · rw [h1, h2]
    exact h3 cs

theorem foldl_append_init_subset {α β : Type} (f : β → List α) (l : List β)
    (init : List α) {x : α} (hx : x ∈ init) :
    x ∈ l.foldl (fun acc e => acc ++ f e) init := by
  induction l generalizing init with
  | nil => exact hx
  | cons e rest ih => exact ih (init ++ f e) (List.mem_append_left _ hx)

theorem mem_foldl_append {α β : Type} (f : β → List α) (l : List β)
    {b : β} {x : α} (hx : x ∈ f b) :
    ∀ init, b ∈ l → x ∈ l.foldl (fun acc e => acc ++ f e) init := by
  induction l with
  | nil => intro init hb; exact absurd hb (List.not_mem_nil b)
  | cons e rest ih =>
      intro init hb
      rcases List.mem_cons.mp hb with he | he
      · subst he
        exact foldl_append_init_subset f rest (init ++ f b)
          (List.mem_append_right _ hx)
      · exact ih (init ++ f e) he

theorem foldl_insertElem_mono {α β : Type} [DecidableEq α]
    (f : β → Option α) (l : List β) {x : α} :
    ∀ init : HSet α, init.mem x = true →
      (foldInsertElemBy f l init).mem x = true := by
  unfold foldInsertElemBy
  induction l with
  | nil => intro init hx; exact hx
  | cons e rest ih =>
      intro init hx
      simp only [List.foldl_cons]
      cases f e with
      | some y =>
          exact ih (init.insertElem y) (by rw [HSet.mem_insertElem, hx]; rfl)
      | none => exact ih init hx

theorem mem_foldl_insertElem {α β : Type} [DecidableEq α]
    (f : β → Option α) (l : List β) {b : β} {x : α} (hx : f b = some x) :
    ∀ init : HSet α, b ∈ l →
      (foldInsertElemBy f l init).mem x = true := by
  unfold foldInsertElemBy
  induction l with
  | nil => intro init hb; exact absurd hb (List.not_mem_nil b)
  | cons e rest ih =>
      intro init hb
      simp only [List.foldl_cons]
      rcases List.mem_cons.mp hb with he | he
      · subst he
        rw [hx]
        exact foldl_insertElem_mono f rest (init.insertElem x)
          (by rw [HSet.mem_insertElem]; simp)
      · cases f e with
        | some y => exact ih (init.insertElem y) he
        | none => exact ih init he

theorem merge_self_eqv {a : LockSet} (ha : a.WF) : (a.merge a).Eqv a := by
  constructor
  · intro lock
    rw [merge_states_get? a a ha.1 lock]
    cases a.lock_states.get? lock with
    | none => rfl
    | some x => exact congrArg some (LockState.join_self x)
  · intro lock
    rw [merge_sites_get? a a ha.2 lock]
    cases a.lock_sites.get? lock with
    | none => trivial
    | some s =>
        intro cs
        rw [HSet.mem_extend, Bool.or_self]

theorem merge_comm_eqv {a b : LockSet} (ha : a.WF) (hb : b.WF) :
    (a.merge b).Eqv (b.merge a) := by
  constructor
  · intro lock
    rw [merge_states_get? a b hb.1 lock, merge_states_get? b a ha.1 lock]
    cases a.lock_states.get? lock with
    | none => cases b.lock_states.get? lock <;> rfl
    | some x =>
        cases b.lock_states.get? lock with
        | none => rfl
        | some y => exact congrArg some (LockState.join_comm x y)
  · intro lock
    rw [merge_sites_get? a b hb.2 lock, merge_sites_get? b a ha.2 lock]
    cases a.lock_sites.get? lock with
    | none =>
        cases b.lock_sites.get? lock with
        | none => trivial
        | some t => intro cs; rfl
    | some s =>
        cases b.lock_sites.get? lock with
        | none => intro cs; rfl
        | some t =>
            intro cs
            rw [HSet.mem_extend, HSet.mem_extend, Bool.or_comm]

theorem merge_assoc_eqv {a b c : LockSet} (ha : a.WF) (hb : b.WF)
    (hc : c.WF) : ((a.merge b).merge c).Eqv (a.merge (b.merge c)) := by
  have hbc : (b.merge c).WF := merge_wf hb
  constructor
  · intro lock
    rw [merge_states_get? (a.merge b) c hc.1 lock,
      merge_states_get? a b hb.1 lock,
      merge_states_get? a (b.merge c) hbc.1 lock,
      merge_states_get? b c hc.1 lock]
    cases a.lock_states.get? lock <;> cases b.lock_states.get? lock <;>
      cases c.lock_states.get? lock <;>
      simp only [] <;> try rfl
    exact congrArg some (LockState.join_assoc _ _ _)
  · intro lock
    rw [merge_sites_get? (a.merge b) c hc.2 lock,
      merge_sites_get? a b hb.2 lock,
      merge_sites_get? a (b.merge c) hbc.2 lock,
      merge_sites_get? b c hc.2 lock]
    cases a.lock_sites.get? lock <;> cases b.lock_sites.get? lock <;>
      cases c.lock_sites.get? lock <;>
      first
        | trivial
        | (intro cs; simp only [HSet.mem_extend, Bool.or_assoc])

theorem new_merge_eqv {a : LockSet} (ha : a.WF) : (LockSet.new.merge a).Eqv a := by
  constructor
  · intro lock
    rw [merge_states_get? LockSet.new a ha.1 lock]
    cases a.lock_states.get? lock <;> rfl
  · intro lock
    rw [merge_sites_get? LockSet.new a ha.2 lock]
    cases a.lock_sites.get? lock with
    | none => trivial
    | some s => intro cs; rfl

/-- `siteMem` distributes over `merge` as boolean disjunction. -/
theorem merge_siteMem {a b : LockSet} (hb : b.lock_sites.WF)
    (lock : LockInstance) (cs : CallSite) :
    (a.merge b).siteMem lock cs = (a.siteMem lock cs || b.siteMem lock cs) := by
  unfold LockSet.siteMem
  rw [merge_sites_get? a b hb lock]
  cases a.lock_sites.get? lock with
  | none => cases b.lock_sites.get? lock <;> simp
  | some s =>
      cases b.lock_sites.get? lock with
      | none => simp
      | some t => simp [HSet.mem_extend]

/-- C1: on the end-to-end scenario (annotated lock `L`, `t1` acquiring `L`
then calling a non-disabling function, `isr_foo` marked `IsrEntry` and
acquiring `L`), `DeadlockDetector::run` reports no self-cycle at all: the
lock-set, LDG and reporter stages of `run` are commented out, so the lock
dependency graph stays empty and the reporter's self-cycle enumeration,
evaluated on it, is empty — not the single `Interrupt` self-cycle on `L`
the claim expects. -/
theorem claim_C1_run_reports_nothing :
    (DeadlockDetector.run scenarioProgram).program_isr_info.isr_entries.mem 2
        = true
    ∧ (DeadlockDetector.run scenarioProgram).lock_dependency_graph
        = LockDependencyGraph.new
    ∧ self_cycle_node
        (DeadlockDetector.run scenarioProgram).lock_dependency_graph = []
    ∧ (self_cycle_node
        (DeadlockDetector.run scenarioProgram).lock_dependency_graph).length
        ≠ 1 := by
  refine ⟨by decide, rfl, rfl, ?_⟩
  decide

/-- C2: `IsrAnalyzer::run` leaves `func_irq_infos` empty for every input —
the call to `analyze_interrupt_set` is commented out — so in particular the
scenario program's function 1, whose MIR is available, has no `FuncIrqInfo`
after the ISR analyzer runs, contradicting the claim. -/
theorem claim_C2_func_irq_infos_empty :
    (∀ parsed_tags, (IsrAnalyzer.run parsed_tags).func_irq_infos = HMap.empty)
    ∧ scenarioProgram.bodies.get? 1 = some t1Body
    ∧ (IsrAnalyzer.run scenarioProgram.parsed_tags).isr_entries.mem 2 = true
    ∧ (IsrAnalyzer.run scenarioProgram.parsed_tags).func_irq_infos.get? 1
        = none := by
  refine ⟨fun parsed_tags => rfl, ?_, by decide, rfl⟩
  decide

/-- C3: dequeuing `(1, c3Ctx, c3Delta)` when no entry lockset is cached for
`(1, c3Ctx)` caches a fresh empty lockset (`LockSet::new()`, line 355 of
`lockset_analyzer.rs`), not the dequeued delta: afterwards the cached entry
for that context is `⊥`, which differs from the delta. -/
theorem claim_C3_delta_dropped :
    ((lsaStep c3Bodies c3Glm c3State).analyzed.get? 1).map
        (fun c => c.entry_lockset.get? c3Ctx) = some (some LockSet.new)
    ∧ LockSet.beq LockSet.new c3Delta = false
    ∧ c3Cached.entry_lockset.get? c3Ctx = none := by
  refine ⟨?_, ?_, ?_⟩ <;> decide

/-- C9: on the cyclic dataflow map `{_1 ↦ _2, _2 ↦ _1}` with a nonempty
direct map not containing either local, the guard-resolution loop of
`LockMapBuilder::run` never reaches one of its two exits: for every number
of steps the chase from `_1` (or `_2`) is still running, i.e. the loop
diverges, contradicting the claim that resolution always finds an instance
or stops. -/
theorem claim_C9_chain_following_diverges :
    c9Lockmap.entries ≠ []
    ∧ ∀ fuel, followDataflow c9Lockmap c9Dfmap fuel 1 = none
        ∧ followDataflow c9Lockmap c9Dfmap fuel 2 = none := by
  refine ⟨by decide, ?_⟩
  intro fuel
  induction fuel with
  | zero => exact ⟨rfl, rfl⟩
  | succ n ih => exact ⟨ih.2, ih.1⟩

theorem lsaLoop_dequeues_le (bodies : HMap DefId Body) (glm : GlobalLockMap) :
    ∀ limit st, (lsaLoop bodies glm limit st).2 ≤ limit := by
  intro limit
  induction limit with
  | zero => intro st; exact Nat.le_refl 0
  | succ n ih =>
      intro st
      unfold lsaLoop
      by_cases h : st.worklist.isEmpty
      · rw [if_pos h]
        exact Nat.zero_le _
      · rw [if_neg h]
        exact Nat.succ_le_succ (ih (lsaStep bodies glm st))

/-- C8 (amended): the worklist loop performs at most
`10 × (number of initially seeded bodies)` dequeue iterations, so
`LockSetAnalyzer::run` terminates on every input.  (The claim's second
part — that the fixed point is always reached before the fuse trips — does
not hold; the counterexample theorem below evaluates the loop on a finite
mutually recursive program whose worklist never drains.) -/
theorem claim_C8_iteration_bound (bodies : HMap DefId Body)
    (glm : GlobalLockMap) (body_owners : List DefId) :
    (LockSetAnalyzer.run bodies glm body_owners).2 ≤ 10 * body_owners.length := by
  unfold LockSetAnalyzer.run
  have h := lsaLoop_dequeues_le bodies glm
    (10 * (body_owners.map (fun f => (f, CallContext.Default, LockSet.new))).length)
    ⟨HMap.empty, body_owners.map (fun f => (f, CallContext.Default, LockSet.new))⟩
  simpa [List.length_map] using h

/-- C8 counterexample: on the finite two-function mutually recursive
program (`f` acquires `L` and calls `g`; `g` calls `f`), the loop exhausts
its whole fuse of `10 × 2 = 20` dequeues and stops with a nonempty
worklist: the fixed point is not reached before the fuse trips. -/
theorem claim_C8_counterexample :
    (LockSetAnalyzer.run mutualBodies mutualGlm [1, 2]).1.worklist.isEmpty
        = false
    ∧ (LockSetAnalyzer.run mutualBodies mutualGlm [1, 2]).2 = 10 * 2 := by
  constructor <;> decide

/-- C5: for `LockState`, `IrqState` and `LockSet`, the join is idempotent,
commutative, associative, and has `Bottom` (respectively the empty
`LockSet`) as identity; for `LockSet` the join is pointwise
`LockState::join` on `lock_states` and pointwise set union on `lock_sites`.
`LockSet` equalities are stated modulo `Eqv`, the extensional equality that
embeds `==` on `HashMap`-backed values. -/
theorem claim_C5_lattice_laws (a b c : LockSet)
    (ha : a.WF) (hb : b.WF) (hc : c.WF) :
    ((∀ x : LockState, x.join x = x)
      ∧ (∀ x y : LockState, x.join y = y.join x)
      ∧ (∀ x y z : LockState, (x.join y).join z = x.join (y.join z))
      ∧ (∀ x : LockState, LockState.Bottom.join x = x))
    ∧ ((∀ x : IrqState, x.union x = x)
      ∧ (∀ x y : IrqState, x.union y = y.union x)
      ∧ (∀ x y z : IrqState, (x.union y).union z = x.union (y.union z))
      ∧ (∀ x : IrqState, IrqState.Bottom.union x = x))
    ∧ ((a.merge a).Eqv a
      ∧ (a.merge b).Eqv (b.merge a)
      ∧ ((a.merge b).merge c).Eqv (a.merge (b.merge c))
      ∧ (LockSet.new.merge a).Eqv a)
    ∧ ((∀ lock, (a.merge b).lock_states.get? lock =
          match a.lock_states.get? lock, b.lock_states.get? lock with
          | none, o => o
          | some x, none => some x
          | some x, some y => some (x.join y))
      ∧ (∀ lock cs, (a.merge b).siteMem lock cs
          = (a.siteMem lock cs || b.siteMem lock cs))) :=
  ⟨⟨LockState.join_self, LockState.join_comm, LockState.join_assoc,
      by decide⟩,
   ⟨IrqState.union_self, IrqState.union_comm, IrqState.union_assoc,
      by decide⟩,
   ⟨merge_self_eqv ha, merge_comm_eqv ha hb, merge_assoc_eqv ha hb hc,
      new_merge_eqv ha⟩,
   ⟨merge_states_get? a b hb.1, merge_siteMem hb.2⟩⟩

theorem claim_C5_lattice_laws_witness :
    c5A.WF ∧ c5B.WF ∧ c5C.WF
    ∧ ((c5A.merge c5B).merge c5C).Eqv (c5A.merge (c5B.merge c5C)) :=
  ⟨by decide, by decide, by decide,
    (claim_C5_lattice_laws c5A c5B c5C (by decide) (by decide)
      (by decide)).2.2.1.2.2.1⟩

/-- C6: at a `Call` terminator whose resolved destination local is a guard
in the caller's `LocalLockMap`, the transfer sets the lock's state to
`MayHold` and adds the current call site to its `lock_sites`; the result
does not depend on the `analyzed_functions` cache (no callee exit lockset
is merged); the callsite table records the callee; and the analyzer run
records `LockSite{lock, site}` in the caller's `lock_operations`. -/
theorem claim_C6_acquisition_transfer (bodies : HMap DefId Body)
    (func_def_id : DefId) (call_context : CallContext)
    (lockmap : LocalLockMap) (entry_lockset : HMap CallContext LockSet)
    (analyzed analyzed2 : HMap DefId FunctionLockSet) (body : Body)
    (b : BasicBlock) (callee : DefId) (destLocal : MirLocal)
    (targets : List BasicBlock) (state : LockSet) (lock : LockInstance)
    (hbody : bodies.get? func_def_id = some body)
    (hterm : body.termAt b = .call (some callee) destLocal targets)
    (hb : b < body.blocks.length)
    (hguard : lockmap.get? destLocal = some lock) :
    lockSetTransfer func_def_id lockmap analyzed b
        (.call (some callee) destLocal targets) state
      = (state.update_lock_state lock .MayHold).add_callsite lock
          ⟨func_def_id, termLoc b⟩
    ∧ lockSetTransfer func_def_id lockmap analyzed b
        (.call (some callee) destLocal targets) state
      = lockSetTransfer func_def_id lockmap analyzed2 b
          (.call (some callee) destLocal targets) state
    ∧ (termLoc b, callee) ∈ bodyCallsites body
    ∧ ((FuncLockSetAnalyzer.run bodies func_def_id call_context lockmap
          entry_lockset analyzed).1.lock_operations).mem
        ⟨lock, ⟨func_def_id, termLoc b⟩⟩ = true := by
  have htrans : ∀ an : HMap DefId FunctionLockSet,
      lockSetTransfer func_def_id lockmap an b
        (.call (some callee) destLocal targets) state
      = (state.update_lock_state lock .MayHold).add_callsite lock
          ⟨func_def_id, termLoc b⟩ := by
    intro an
    simp [lockSetTransfer, hguard]
  have hpiece : (termLoc b, callee) ∈ callsitePiece body b := by
    unfold callsitePiece
    rw [hterm]
    exact List.mem_singleton.mpr rfl
  have hcs : (termLoc b, callee) ∈ bodyCallsites body :=
    mem_foldl_append (callsitePiece body) (List.range body.blocks.length)
      hpiece [] (List.mem_range.mpr hb)
  refine ⟨htrans analyzed, (htrans analyzed).trans (htrans analyzed2).symm,
    hcs, ?_⟩
  have hrun : (FuncLockSetAnalyzer.run bodies func_def_id call_context lockmap
      entry_lockset analyzed).1.lock_operations
      = runLockOps body lockmap func_def_id
          ((analyzed.get? func_def_id).getD
            ⟨func_def_id, entry_lockset, HMap.empty, HMap.empty,
              HSet.empty⟩).lock_operations := by
    unfold FuncLockSetAnalyzer.run
    rw [hbody]
    rfl
  rw [hrun]
  have hop : lockOpOf body lockmap func_def_id (termLoc b, callee)
      = some ⟨lock, ⟨func_def_id, termLoc b⟩⟩ := by
    simp [lockOpOf, termLoc, hterm, hguard]
  unfold runLockOps
  exact mem_foldl_insertElem (lockOpOf body lockmap func_def_id)
    (bodyCallsites body) hop _ hcs

theorem claim_C6_acquisition_transfer_witness :
    c6Bodies.get? 1 = some c6Body
    ∧ c6Body.termAt 0 = .call (some 50) 10 [1]
    ∧ c6Lockmap.get? 10 = some lockL
    ∧ ((FuncLockSetAnalyzer.run c6Bodies 1 CallContext.Default c6Lockmap
          HMap.empty HMap.empty).1.lock_operations).mem
        ⟨lockL, ⟨1, termLoc 0⟩⟩ = true :=
  ⟨by decide, by decide, by decide,
    (claim_C6_acquisition_transfer c6Bodies 1 CallContext.Default c6Lockmap
      HMap.empty HMap.empty HMap.empty c6Body 0 50 10 [1] LockSet.new lockL
      (by decide) (by decide) (by decide) (by decide)).2.2.2⟩

theorem calleeExitLookup_insert_pre_bb {analyzed : HMap DefId FunctionLockSet}
    {f : DefId} {c : FunctionLockSet} (other : HMap BasicBlock LockSet)
    (hc : analyzed.get? f = some c) (d : DefId) (ctx : CallContext) :
    calleeExitLookup (analyzed.insert f { c with pre_bb_locksets := other })
        d ctx
      = calleeExitLookup analyzed d ctx := by
  unfold calleeExitLookup
  by_cases hd : d = f
  · subst hd
    rw [HMap.get?_insert_self, hc]
  · rw [HMap.get?_insert_ne _ _ _ _ hd]

theorem lockSetTransfer_exit_congr {analyzed analyzed2 :
    HMap DefId FunctionLockSet} {func_def_id : DefId} {lockmap : LocalLockMap}
    (h : ∀ d ctx, calleeExitLookup analyzed d ctx
      = calleeExitLookup analyzed2 d ctx) :
    lockSetTransfer func_def_id lockmap analyzed
      = lockSetTransfer func_def_id lockmap analyzed2 := by
  funext b t state
  cases t with
  | call calleeOpt destLocal targets =>
      cases calleeOpt with
      | some callee =>
          cases hdl : lockmap.get? destLocal with
          | some lock => simp [lockSetTransfer, hdl]
          | none => simp [lockSetTransfer, hdl, h]
      | none => rfl
  | drop placeLocal target => rfl
  | ret => rfl
  | goto target => rfl

theorem solveLockFixpoint_exit_congr {analyzed analyzed2 :
    HMap DefId FunctionLockSet} {func_def_id : DefId} {lockmap : LocalLockMap}
    (body : Body) (init : LockSet)
    (h : ∀ d ctx, calleeExitLookup analyzed d ctx
      = calleeExitLookup analyzed2 d ctx) :
    solveLockFixpoint func_def_id lockmap analyzed body init
      = solveLockFixpoint func_def_id lockmap analyzed2 body init := by
  have hstep : lockStep func_def_id lockmap analyzed body init
      = lockStep func_def_id lockmap analyzed2 body init := by
    unfold lockStep
    rw [lockSetTransfer_exit_congr h]
  have hiter : ∀ fuel entries,
      lockIterate func_def_id lockmap analyzed body init fuel entries
        = lockIterate func_def_id lockmap analyzed2 body init fuel entries := by
    intro fuel
    induction fuel with
    | zero => intro entries; rfl
    | succ n ih =>
        intro entries
        unfold lockIterate
        rw [hstep]
        dsimp only
        rw [ih]
  unfold solveLockFixpoint
  exact hiter 64 _

/-- C10: `pre_bb_locksets` is a single per-function map not keyed by
`CallContext`; each analyzer run overwrites it wholesale with the per-block
locksets computed under the context of that run (first conjunct, the map is
rebuilt from the converged states of this run only), and the previously
stored per-block map has no influence on the result (second conjunct). -/
theorem claim_C10_pre_bb_overwritten (bodies : HMap DefId Body)
    (func_def_id : DefId) (call_context : CallContext)
    (lockmap : LocalLockMap) (entry_lockset : HMap CallContext LockSet)
    (analyzed : HMap DefId FunctionLockSet) (c : FunctionLockSet)
    (other : HMap BasicBlock LockSet)
    (hc : analyzed.get? func_def_id = some c) :
    (FuncLockSetAnalyzer.run bodies func_def_id call_context lockmap
        entry_lockset analyzed).1.pre_bb_locksets
      = runPreBB ((bodies.get? func_def_id).getD ⟨[]⟩)
          (fun b => (solveLockFixpoint func_def_id lockmap analyzed
            ((bodies.get? func_def_id).getD ⟨[]⟩)
            ((entry_lockset.get? call_context).getD LockSet.new)).getD b
              LockSet.new)
    ∧ (FuncLockSetAnalyzer.run bodies func_def_id call_context lockmap
        entry_lockset
        (analyzed.insert func_def_id
          { c with pre_bb_locksets := other })).1.pre_bb_locksets
      = (FuncLockSetAnalyzer.run bodies func_def_id call_context lockmap
          entry_lockset analyzed).1.pre_bb_locksets := by
  constructor
  · rfl
  · show runPreBB _ _ = runPreBB _ _
    rw [solveLockFixpoint_exit_congr _ _
      (calleeExitLookup_insert_pre_bb other hc)]

theorem dropRelease_states_get? (state : LockSet) (lock : LockInstance) :
    (dropRelease state lock).lock_states.get? lock = some .MustNotHold := by
  unfold dropRelease
  cases hls : (state.update_lock_state lock
      .MustNotHold).lock_sites.get? lock with
  | some s =>
      show (state.update_lock_state lock
        .MustNotHold).lock_states.get? lock = _
      exact HMap.get?_insert_self _ _ _
  | none =>
      show (state.update_lock_state lock
        .MustNotHold).lock_states.get? lock = _
      exact HMap.get?_insert_self _ _ _

theorem dropRelease_siteMem (state : LockSet) (lock : LockInstance)
    (cs : CallSite) : (dropRelease state lock).siteMem lock cs = false := by
  unfold dropRelease LockSet.siteMem
  cases hls : (state.update_lock_state lock
      .MustNotHold).lock_sites.get? lock with
  | some s =>
      show (match (state.update_lock_state lock
          .MustNotHold).lock_sites.insert lock HSet.empty |>.get? lock with
        | some set => set.mem cs
        | none => false) = false
      rw [HMap.get?_insert_self]
      rfl
  | none =>
      show (match (state.update_lock_state lock
          .MustNotHold).lock_sites.get? lock with
        | some set => set.mem cs
        | none => false) = false
      rw [hls]

theorem dropRelease_states_eq (state : LockSet) (lock : LockInstance) :
    (dropRelease state lock).lock_states
      = state.lock_states.insert lock .MustNotHold := by
  unfold dropRelease
  cases hls : (state.update_lock_state lock
      .MustNotHold).lock_sites.get? lock <;> rfl

theorem list_all_getD {α : Type} {l : List α} {p : α → Bool}
    (h : l.all p = true) {i : Nat} (hi : i < l.length) (d : α) :
    p (l.getD i d) = true := by
  rw [List.getD_eq_getElem l d hi]
  exact List.all_eq_true.mp h _ (List.getElem_mem hi)

theorem isLockFixpoint_eqn {func_def_id : DefId} {lockmap : LocalLockMap}
    {analyzed : HMap DefId FunctionLockSet} {body : Body} {init : LockSet}
    {pre : List LockSet}
    (h : isLockFixpoint func_def_id lockmap analyzed body init pre = true) :
    pre.length = body.blocks.length
    ∧ ∀ b, b < body.blocks.length →
      LockSet.beq (pre.getD b LockSet.new)
        (if b = 0 then init
         else
           (body.preds b).foldl
             (fun acc p =>
               acc.merge (lockSetTransfer func_def_id lockmap analyzed p
                 (body.termAt p) (pre.getD p LockSet.new)))
             LockSet.new) = true := by
  unfold isLockFixpoint at h
  rw [Bool.and_eq_true] at h
  refine ⟨of_decide_eq_true h.1, ?_⟩
  intro b hb
  exact List.all_eq_true.mp h.2 b (List.mem_range.mpr hb)

/-- C7: a `Drop` terminator on a guard mapped to lock `L` sets
`lock_states[L] = MustNotHold` and clears `lock_sites[L]` (first conjunct);
consequently, in any fixpoint solution of the dataflow equations for a
function where an acquisition into guard `g ↦ L` at `loc1` flows without
branches into `Drop(g)` at `loc2`, the block-entry lockset of block
`loc2.block + 1` has `lock_states[L] = MustNotHold` (second conjunct). -/
theorem claim_C7_drop_releases (func_def_id : DefId) (lockmap : LocalLockMap)
    (analyzed : HMap DefId FunctionLockSet) (body : Body) (init : LockSet)
    (pre : List LockSet) (g : MirLocal) (L : LockInstance)
    (loc1 loc2 : Location) (callee : DefId) (dropTarget : BasicBlock)
    (hfix : isLockFixpoint func_def_id lockmap analyzed body init pre = true)
    (hwf : pre.all (fun ls => decide ls.WF) = true)
    (hg : lockmap.get? g = some L)
    (hacq : body.termAt loc1.block = .call (some callee) g [loc2.block])
    (hdrop : body.termAt loc2.block = .drop g dropTarget)
    (htarget : dropTarget = loc2.block + 1)
    (hlt2 : loc2.block < body.blocks.length)
    (hltn : loc2.block + 1 < body.blocks.length)
    (hpreds : body.preds (loc2.block + 1) = [loc2.block]) :
    (∀ state : LockSet,
        (lockSetTransfer func_def_id lockmap analyzed loc2.block
            (.drop g dropTarget) state).lock_states.get? L
          = some .MustNotHold
        ∧ ∀ cs, (lockSetTransfer func_def_id lockmap analyzed loc2.block
            (.drop g dropTarget) state).siteMem L cs = false)
    ∧ (pre.getD (loc2.block + 1) LockSet.new).lock_states.get? L
        = some .MustNotHold := by
  have htr : ∀ state : LockSet,
      lockSetTransfer func_def_id lockmap analyzed loc2.block
        (.drop g dropTarget) state = dropRelease state L := by
    intro state
    simp [lockSetTransfer, hg]
  constructor
  · intro state
    rw [htr state]
    exact ⟨dropRelease_states_get? state L, dropRelease_siteMem state L⟩
  · obtain ⟨hlen, heqn⟩ := isLockFixpoint_eqn hfix
    have h1 := heqn (loc2.block + 1) hltn
    rw [if_neg (Nat.succ_ne_zero loc2.block), hpreds] at h1
    simp only [List.foldl_cons, List.foldl_nil] at h1
    rw [hdrop, htr (pre.getD loc2.block LockSet.new)] at h1
    have hstate_wf : (pre.getD loc2.block LockSet.new).WF := by
      apply of_decide_eq_true
      apply list_all_getD hwf
      rw [hlen]
      exact hlt2
    have hwfdrop : (dropRelease (pre.getD loc2.block LockSet.new)
        L).lock_states.WF := by
      rw [dropRelease_states_eq]
      exact HMap.wf_insert hstate_wf.1 L .MustNotHold
    rw [LockSet.beq_states_get? h1 L,
      merge_states_get? LockSet.new _ hwfdrop L,
      dropRelease_states_get?]
    rfl

theorem claim_C7_drop_releases_witness :
    isLockFixpoint 1 c7Lockmap HMap.empty c7Body LockSet.new c7Pre = true
    ∧ (c7Pre.getD 2 LockSet.new).lock_states.get? lockL
        = some .MustNotHold :=
  ⟨by decide,
    (claim_C7_drop_releases 1 c7Lockmap HMap.empty c7Body LockSet.new c7Pre
      10 lockL ⟨0, 0⟩ ⟨1, 0⟩ 50 2 (by decide) (by decide) (by decide)
      (by decide) (by decide) (by decide) (by decide) (by decide)
      (by decide)).2⟩

theorem claim_C10_pre_bb_overwritten_witness :
    c10Analyzed.get? 1 = some c10Cached
    ∧ (FuncLockSetAnalyzer.run c6Bodies 1 CallContext.Default c6Lockmap
        HMap.empty
        (c10Analyzed.insert 1
          { c10Cached with pre_bb_locksets := c10Other })).1.pre_bb_locksets
      = (FuncLockSetAnalyzer.run c6Bodies 1 CallContext.Default c6Lockmap
          HMap.empty c10Analyzed).1.pre_bb_locksets :=
  ⟨by decide,
    (claim_C10_pre_bb_overwritten c6Bodies 1 CallContext.Default c6Lockmap
      HMap.empty c10Analyzed c10Cached c10Other (by decide)).2⟩

theorem optFoldAppend_none {α : Type} (g : Nat → Option (List α)) :
    ∀ bs : List Nat, bs.foldl (fun acc b =>
      match acc, g b with
      | some l, some l2 => some (l ++ l2)
      | _, _ => none) none = none := by
  intro bs
  induction bs with
  | nil => rfl
  | cons b rest ih => exact ih

theorem optFoldAppend_spec {α : Type} (g : Nat → Option (List α)) :
    ∀ (bs : List Nat) (init res : List α),
      optFoldAppend g bs init = some res →
      (∀ x ∈ init, x ∈ res)
      ∧ ∀ b ∈ bs, ∃ l, g b = some l ∧ ∀ x ∈ l, x ∈ res := by
  intro bs
  induction bs with
  | nil =>
      intro init res h
      injection h with h2
      subst h2
      exact ⟨fun x hx => hx, fun b hb => absurd hb (List.not_mem_nil b)⟩
  | cons b rest ih =>
      intro init res h
      unfold optFoldAppend at h
      rw [List.foldl_cons] at h
      cases hgb : g b with
      | none =>
          rw [hgb] at h
          exact absurd (optFoldAppend_none g rest ▸ h) (by simp)
      | some l2 =>
          rw [hgb] at h
          obtain ⟨hinit, hrest⟩ := ih (init ++ l2) res h
          refine ⟨fun x hx => hinit x (List.mem_append_left _ hx), ?_⟩
          intro b2 hb2
          rcases List.mem_cons.mp hb2 with hb2 | hb2
          · subst hb2
            exact ⟨l2, hgb,
              fun x hx => hinit x (List.mem_append_right _ hx)⟩
          · exact hrest b2 hb2

theorem mem_callerLocksites {csl : LockSet} {heldLock : LockInstance}
    {heldSite : CallSite}
    (hstate : csl.lock_states.get? heldLock = some .MayHold)
    (hsite : csl.siteMem heldLock heldSite = true) :
    (⟨heldLock, heldSite⟩ : LockSite) ∈ callerLocksites csl := by
  unfold LockSet.siteMem at hsite
  cases hset : csl.lock_sites.get? heldLock with
  | none => rw [hset] at hsite; exact absurd hsite (by simp)
  | some set =>
      rw [hset] at hsite
      have hmem : (heldLock, set) ∈ csl.lock_sites.entries :=
        HMap.get?_mem hset
      unfold callerLocksites
      apply mem_foldl_append (heldSitesPiece csl)
        csl.lock_sites.entries ?_ [] hmem
      unfold heldSitesPiece
      rw [if_pos hstate]
      exact List.mem_map_of_mem _ ((HSet.mem_iff set heldSite).mp hsite)

theorem mem_extract_locksite_pairs {csl : LockSet} {ops : HSet LockSite}
    {nl : LockSite} {heldLock : LockInstance} {heldSite : CallSite}
    (hnl : nl ∈ ops.elems)
    (hstate : csl.lock_states.get? heldLock = some .MayHold)
    (hsite : csl.siteMem heldLock heldSite = true) :
    (nl, (⟨heldLock, heldSite⟩ : LockSite))
      ∈ extract_locksite_pairs csl ops := by
  unfold extract_locksite_pairs
  apply mem_foldl_append
    (fun callee_locksite => (callerLocksites csl).map
      (fun caller_locksite => (callee_locksite, caller_locksite)))
    ops.elems ?_ [] hnl
  exact List.mem_map_of_mem _ (mem_callerLocksites hstate hsite)

/-- C4: at a terminator `loc` of function `f` whose block-entry IRQ state
is not `MustBeDisabled`, for every ISR-possible function `h`, every lock
operation `nl` of `h`, and every lock held with state `MayHold` in `f`'s
lockset at `loc`'s block (at each of its recorded acquisition sites), the
interrupt-edge collector emits the pair `nl → held` with interrupt call
site `(f, loc)`. -/
theorem claim_C4_interrupt_edges (func_def_id : DefId) (body : Body)
    (program_lock_set : HMap DefId FunctionLockSet)
    (program_isr_info : ProgramIsrInfo) (loc : Location)
    (func_info : FuncIrqInfo) (irq_state : IrqState)
    (func_lock_info : FunctionLockSet) (callsite_lockset : LockSet)
    (isr : DefId) (isr_info : FunctionLockSet) (nl : LockSite)
    (heldLock : LockInstance) (heldSite : CallSite)
    (res : List (LockSite × LockSite × CallSite))
    (h1 : program_isr_info.func_irq_infos.get? func_def_id = some func_info)
    (h2 : func_info.pre_bb_irq_states.get? loc.block = some irq_state)
    (h3 : irq_state ≠ .MustBeDisabled)
    (h4 : program_lock_set.get? func_def_id = some func_lock_info)
    (h5 : func_lock_info.pre_bb_locksets.get? loc.block
      = some callsite_lockset)
    (h6 : program_isr_info.isr_funcs.mem isr = true)
    (h7 : program_lock_set.get? isr = some isr_info)
    (h8 : nl ∈ isr_info.lock_operations.elems)
    (h9 : callsite_lockset.lock_states.get? heldLock = some .MayHold)
    (h10 : callsite_lockset.siteMem heldLock heldSite = true)
    (h11 : loc = termLoc loc.block)
    (h12 : loc.block < body.blocks.length)
    (h13 : interruptEdgeCollect func_def_id body program_lock_set
      program_isr_info = some res) :
    (nl, (⟨heldLock, heldSite⟩ : LockSite),
      (⟨func_def_id, loc⟩ : CallSite)) ∈ res := by
  have hvisit : interruptVisitTerminator func_def_id program_lock_set
      program_isr_info loc
      = some (program_isr_info.isr_funcs.elems.foldl
          (fun acc isr_def_id =>
            acc ++ isrPairsPiece program_lock_set func_def_id loc
              callsite_lockset isr_def_id) []) := by
    unfold interruptVisitTerminator
    simp only [h1, h2, h4, h5, if_neg h3]
  have hpair : (nl, (⟨heldLock, heldSite⟩ : LockSite),
      (⟨func_def_id, loc⟩ : CallSite))
      ∈ isrPairsPiece program_lock_set func_def_id loc callsite_lockset
          isr := by
    unfold isrPairsPiece
    rw [h7]
    exact List.mem_map_of_mem _ (mem_extract_locksite_pairs h8 h9 h10)
  have hmem : (nl, (⟨heldLock, heldSite⟩ : LockSite),
      (⟨func_def_id, loc⟩ : CallSite))
      ∈ program_isr_info.isr_funcs.elems.foldl
          (fun acc isr_def_id =>
            acc ++ isrPairsPiece program_lock_set func_def_id loc
              callsite_lockset isr_def_id) [] :=
    mem_foldl_append _ program_isr_info.isr_funcs.elems hpair []
      ((HSet.mem_iff _ isr).mp h6)
  obtain ⟨-, hblocks⟩ := optFoldAppend_spec _ _ _ _ h13
  obtain ⟨l, hl, hsub⟩ := hblocks loc.block (List.mem_range.mpr h12)
  rw [← h11, hvisit] at hl
  injection hl with hl2
  subst hl2
  exact hsub _ hmem

theorem claim_C4_interrupt_edges_witness :
    c4Csl.lock_states.get? lockL = some .MayHold
    ∧ c4Pii.isr_funcs.mem 7 = true
    ∧ (c4Nl, (⟨lockL, c4HeldCs⟩ : LockSite), (⟨1, termLoc 0⟩ : CallSite))
        ∈ c4Res :=
  ⟨by decide, by decide,
    claim_C4_interrupt_edges 1 c4Body c4Pls c4Pii (termLoc 0) c4Fi
      .MayBeEnabled c4Fli c4Csl 7 c4IsrInfo c4Nl lockL c4HeldCs c4Res
      (by decide) (by decide) (by decide) (by decide) (by decide)
      (by decide) (by decide) (by decide) (by decide) (by decide)
      (by decide) (by decide) (by decide)⟩

end RTool
